import Mathlib

/-!
Shallow embedding of the nikolaj patrol-zone pipeline, from
src/app/src/app/components/alphaShape.ts and
src/app/src/app/components/clustering.ts.

JavaScript numbers are modelled by real numbers; the values NaN and
±Infinity, which the ingestion filter must reason about, are modelled
explicitly by the JsNum type at the filter boundary.  The external
libraries that the source imports are modelled as oracle parameters:
d3-delaunay (Delaunay.from) becomes a Triangulator argument returning
an optional list of index triples (none models a thrown geometry
error, caught by the try/catch of alphaShape.ts), and ml-kmeans
(kmeansGenerator, iterated to exhaustion with the last yielded value
kept) becomes a KMeans argument returning an optional KMeansResult
(none models a generator that yielded nothing, or a result without a
clusters/centroids field).
-/

namespace Nikolaj

/-- A JavaScript numeric value as produced by the Number() conversion:
NaN, an infinity, or a finite number (modelled by a real). -/
inductive JsNum where
  | nan : JsNum
  | posInf : JsNum
  | negInf : JsNum
  | num : ℝ → JsNum

/-- The isNaN test of clustering.ts lines 22-23: true exactly on NaN
(note that JavaScript isNaN is false on ±Infinity). -/
def JsNum.isNaN : JsNum → Bool
  | .nan => true
  | _ => false

/-- The real value carried by a finite JsNum.  NaN and ±Infinity have no
real counterpart and are collapsed to 0; no claim in this development
depends on arithmetic over non-finite values, only on whether the filter
keeps the rows that carry them. -/
def JsNum.val : JsNum → ℝ
  | .num x => x
  | _ => 0

/-- One raw record (DataRow of clustering.ts): each coordinate field is
either absent (undefined) or carries some JavaScript numeric value. -/
structure DataRow where
  Latitude : Option JsNum
  Longitude : Option JsNum

/-- Number(field) for an optional field: Number(undefined) is NaN, a
present field converts to its value. -/
def toNumber : Option JsNum → JsNum
  | none => JsNum.nan
  | some v => v

/-- The row-validity filter of clustering.ts lines 19-24: both fields
present (not undefined) and neither converting to NaN. -/
def keepRow (r : DataRow) : Bool :=
  r.Latitude.isSome && r.Longitude.isSome &&
    !(toNumber r.Latitude).isNaN && !(toNumber r.Longitude).isNaN

/-- The primary feature list of clustering.ts lines 18-25: the kept rows
mapped to latitude-first pairs. -/
def features (data : List DataRow) : List (ℝ × ℝ) :=
  (data.filter keepRow).map fun r =>
    ((toNumber r.Latitude).val, (toNumber r.Longitude).val)

/-- The duck-typed centroid shape of clustering.ts lines 87-90: a
centroid is sometimes an object wrapping the pair, sometimes the bare
pair. -/
inductive CentroidRepr where
  | wrapped : ℝ × ℝ → CentroidRepr
  | bare : ℝ × ℝ → CentroidRepr

/-- The unwrapping map of clustering.ts lines 87-90. -/
def CentroidRepr.extract : CentroidRepr → ℝ × ℝ
  | .wrapped c => c
  | .bare c => c

/-- Result of running a kmeansGenerator to exhaustion (clustering.ts
lines 8-14): the assignment array and the centroid array. -/
structure KMeansResult where
  clusters : List ℕ
  centroids : List CentroidRepr

/-- The ml-kmeans oracle: point list and cluster count in, the last
yielded result out (none when the generator produced nothing usable). -/
abbrev KMeans : Type := List (ℝ × ℝ) → ℕ → Option KMeansResult

/-- Array.from(new Set(list)) of clustering.ts line 47: JavaScript Set
iteration is insertion order, so this is the distinct elements in order
of first appearance. -/
def jsSet (l : List ℕ) : List ℕ :=
  l.foldl (fun acc x => if x ∈ acc then acc else acc ++ [x]) []

/-- The per-cluster point extraction of clustering.ts lines 52-54,
verbatim: it filters the ORIGINAL data array by index against the primary
assignment (which indexes the filtered feature list), and swaps the
coordinates to longitude-first order. -/
def clusterPoints (data : List DataRow) (primaryClusters : List ℕ)
    (clusterId : ℕ) : List (ℝ × ℝ) :=
  ((data.enum.filter fun p =>
      p.1 < primaryClusters.length && primaryClusters.getD p.1 0 == clusterId).map
    fun p => ((toNumber p.2.Longitude).val, (toNumber p.2.Latitude).val))

/-- The secondary cluster count of clustering.ts lines 64-65:
Math.floor(Math.pow(m, 0.25)), raised to 1 when below 1. -/
noncomputable def subClusterCount (m : ℕ) : ℕ :=
  let s := ⌊(m : ℝ) ^ ((0.25 : ℝ))⌋₊
  if s < 1 then 1 else s

/-- Euclidean distance of alphaShape.ts lines 30-32. -/
noncomputable def dist (p q : ℝ × ℝ) : ℝ :=
  Real.sqrt ((p.1 - q.1) ^ 2 + (p.2 - q.2) ^ 2)

/-- The addEdge closure of alphaShape.ts lines 12-22 on the edges map,
modelled as an insertion-ordered association list keyed by the directed
pair (the string keys i-j are in bijection with the pairs).  If either
direction is present nothing is added, and in outer-only mode a present
reverse direction is deleted; otherwise the directed edge is appended. -/
def addEdge (onlyOuter : Bool) (es : List (ℕ × ℕ)) (i j : ℕ) : List (ℕ × ℕ) :=
  if (i, j) ∈ es ∨ (j, i) ∈ es then
    (if onlyOuter ∧ (j, i) ∈ es then es.erase (j, i) else es)
  else es ++ [(i, j)]

/-- Side lengths (a, b, c) of a triangle of point indices, as computed in
alphaShape.ts lines 27-32 (indices out of the point list range are read
as a default point; the Delaunay library only emits in-range indices). -/
noncomputable def triSides (points : List (ℝ × ℝ)) (T : ℕ × ℕ × ℕ) : ℝ × ℝ × ℝ :=
  let pa := points.getD T.1 (0, 0)
  let pb := points.getD T.2.1 (0, 0)
  let pc := points.getD T.2.2 (0, 0)
  (dist pa pb, dist pb pc, dist pc pa)

/-- Heron area of alphaShape.ts lines 33-34. -/
noncomputable def triArea (points : List (ℝ × ℝ)) (T : ℕ × ℕ × ℕ) : ℝ :=
  let a := (triSides points T).1
  let b := (triSides points T).2.1
  let c := (triSides points T).2.2
  let s := (a + b + c) / 2
  Real.sqrt (s * (s - a) * (s - b) * (s - c))

/-- Circumradius of alphaShape.ts line 36. -/
noncomputable def triCircum (points : List (ℝ × ℝ)) (T : ℕ × ℕ × ℕ) : ℝ :=
  let a := (triSides points T).1
  let b := (triSides points T).2.1
  let c := (triSides points T).2.2
  a * b * c / (4 * triArea points T)

/-- The loop body of alphaShape.ts lines 23-42 for one triangle:
degenerate triangles (area 0) are skipped, triangles passing the
circumradius test register their three directed edges. -/
noncomputable def triStep (points : List (ℝ × ℝ)) (alpha : ℝ) (onlyOuter : Bool)
    (es : List (ℕ × ℕ)) (T : ℕ × ℕ × ℕ) : List (ℕ × ℕ) :=
  if triArea points T = 0 then es
  else if triCircum points T < alpha then
    addEdge onlyOuter (addEdge onlyOuter (addEdge onlyOuter es T.1 T.2.1) T.2.1 T.2.2) T.2.2 T.1
  else es

/-- The d3-delaunay oracle: Delaunay.from(points).triangles grouped in
index triples; none models a thrown geometry error. -/
abbrev Triangulator : Type := List (ℝ × ℝ) → Option (List (ℕ × ℕ × ℕ))

/-- alphaShape of alphaShape.ts lines 3-50: fewer than four points or a
triangulation failure yield the empty edge list, otherwise the triangles
are folded through triStep and the surviving directed edges are returned
in map insertion order. -/
noncomputable def alphaShape (tri : Triangulator) (points : List (ℝ × ℝ))
    (alpha : ℝ) (onlyOuter : Bool) : List (ℕ × ℕ) :=
  if points.length < 4 then []
  else
    match tri points with
    | none => []
    | some triangles => triangles.foldl (triStep points alpha onlyOuter) []

/-- The body of the per-primary-cluster loop of clustering.ts lines
50-112: none models every continue branch (fewer than four member
points, a failed secondary clustering, fewer than four centers, or no
alpha-shape edge); some gives the (centers, edges) pair pushed onto
Hcenters and Pedges. -/
noncomputable def clusterStep (km : KMeans) (tri : Triangulator)
    (data : List DataRow) (primaryClusters : List ℕ) (clusterId : ℕ) :
    Option (List (ℝ × ℝ) × List (ℕ × ℕ)) :=
  let pts := clusterPoints data primaryClusters clusterId
  if pts.length < 4 then none
  else
    match km pts (subClusterCount pts.length) with
    | none => none
    | some subResult =>
      let centers := subResult.centroids.map CentroidRepr.extract
      if centers.length < 4 then none
      else
        let edges := alphaShape tri centers 1 true
        if 0 < edges.length then some (centers, edges) else none

/-- The body of the assembly loop of clustering.ts lines 120-127 for one
edge (j, k): when both endpoint indices are in range for the centroid
set, the longitude pair and the latitude pair of the segment are
appended to the two output sequences; otherwise the edge is passed over
by the guard and the output is unchanged. -/
def assembleEdge (centers : List (ℝ × ℝ)) (out : List (List ℝ) × List (List ℝ))
    (e : ℕ × ℕ) : List (List ℝ) × List (List ℝ) :=
  if e.1 < centers.length ∧ e.2 < centers.length then
    (out.1 ++ [[(centers.getD e.1 (0, 0)).1, (centers.getD e.2 (0, 0)).1]],
     out.2 ++ [[(centers.getD e.1 (0, 0)).2, (centers.getD e.2 (0, 0)).2]])
  else out

/-- The boundary assembly loop of clustering.ts lines 114-129: every
surviving (centers, edges) pair contributes its edges in order. -/
def assemble (pairs : List (List (ℝ × ℝ) × List (ℕ × ℕ))) :
    List (List ℝ) × List (List ℝ) :=
  pairs.foldl (fun out p => p.2.foldl (assembleEdge p.1) out) ([], [])

/-- The primary clustering stage of clustering.ts lines 18-41: the
feature list, the clamped cluster count, the early empty returns, and
the primary assignment.  none models every early return { longs: [],
lats: [] }. -/
def primaryAssignment (km : KMeans) (data : List DataRow) (nCluster : ℤ) :
    Option (List ℕ) :=
  let f := features data
  let actualNClusters : ℤ := min nCluster (f.length : ℤ)
  if actualNClusters < 1 ∨ f.length < 1 then none
  else
    match km f actualNClusters.toNat with
    | none => none
    | some primaryResult => some primaryResult.clusters

/-- The order in which analyze visits primary cluster ids
(clustering.ts lines 47-50): distinct assignment values in first
appearance order; empty when the primary stage returned early. -/
def analyzeProcessedIds (km : KMeans) (data : List DataRow) (nCluster : ℤ) :
    List ℕ :=
  match primaryAssignment km data nCluster with
  | none => []
  | some cs => jsSet cs

/-- analyze of clustering.ts lines 16-132: primary clustering, the
per-cluster secondary pass in first-appearance order of cluster id, and
the assembly of the surviving boundaries into the longs and lats
sequences. -/
noncomputable def analyze (km : KMeans) (tri : Triangulator)
    (data : List DataRow) (nCluster : ℤ) : List (List ℝ) × List (List ℝ) :=
  match primaryAssignment km data nCluster with
  | none => ([], [])
  | some cs => assemble ((jsSet cs).filterMap (clusterStep km tri data cs))

/-! Concrete rows, oracles and point sets used by witnesses and
counterexamples below. -/

/-- A fully valid record. -/
def row (lat lon : ℝ) : DataRow := ⟨some (JsNum.num lat), some (JsNum.num lon)⟩

/-- A record whose latitude field is absent (undefined). -/
def rowU (lon : ℝ) : DataRow := ⟨none, some (JsNum.num lon)⟩

/-- A record whose latitude converts to Infinity (not NaN). -/
def rowInf : DataRow := ⟨some JsNum.posInf, some (JsNum.num 0)⟩

/-- A kmeans oracle returning a fixed assignment and no centroids. -/
def kmConst (cs : List ℕ) : KMeans := fun _ _ => some ⟨cs, []⟩

/-- A kmeans oracle that only answers on small inputs; it agrees with
kmConst [0] on the empty point list but differs elsewhere. -/
def kmSmall : KMeans := fun ps _ => if ps.length < 4 then some ⟨[0], []⟩ else none

/-- A triangulator that always raises (models a geometry failure). -/
def triNone : Triangulator := fun _ => none

/-- Two valid records. -/
def dataTwo : List DataRow := [row 0 0, row 1 1]

/-- One invalid record followed by four valid ones: the shape of input on
which the index misalignment of clustering.ts lines 52-54 shows. -/
def dataMixed : List DataRow := [rowU 9, row 1 11, row 2 12, row 3 13, row 4 14]

/-- The foldl underlying jsSet, specified for every accumulator: it
appends a duplicate-free first-appearance selection of the remaining
elements. -/
theorem jsSet_foldl_spec (l : List ℕ) :
    ∀ acc : List ℕ,
      ∃ t : List ℕ,
        List.foldl (fun acc x => if x ∈ acc then acc else acc ++ [x]) acc l = acc ++ t ∧
        t.Sublist l ∧ (∀ y, y ∈ acc ++ t ↔ y ∈ acc ∨ y ∈ l) ∧
        (acc.Nodup → (acc ++ t).Nodup) := by
  induction l with
  | nil => exact fun acc => ⟨[], by simp⟩
  | cons x xs ih =>
    intro acc
    by_cases hx : x ∈ acc
    · obtain ⟨t, h1, h2, h3, h4⟩ := ih acc
      refine ⟨t, by simpa [if_pos hx] using h1, h2.cons x, ?_, h4⟩
      intro y
      have hy := h3 y
      simp only [List.mem_append, List.mem_cons] at hy ⊢
      constructor
      · intro h; rcases hy.mp h with h | h
        · exact Or.inl h
        · exact Or.inr (Or.inr h)
      · intro h
        rcases h with h | h | h
        · exact hy.mpr (Or.inl h)
        · exact hy.mpr (Or.inl (h ▸ hx))
        · exact hy.mpr (Or.inr h)
    · obtain ⟨t, h1, h2, h3, h4⟩ := ih (acc ++ [x])
      refine ⟨x :: t, ?_, h2.cons₂ x, ?_, ?_⟩
      · rw [List.foldl_cons, if_neg hx] at *
        simpa [List.append_assoc] using h1
      · intro y
        have hy := h3 y
        simp only [List.mem_append, List.mem_cons, List.not_mem_nil, or_false] at hy ⊢
        constructor
        · intro h
          rcases h with h | h | h
          · exact Or.inl h
          · exact Or.inr (Or.inl h)
          · rcases hy.mp (Or.inr h) with (h | h) | h
            · exact Or.inl h
            · exact Or.inr (Or.inl h)
            · exact Or.inr (Or.inr h)
        · intro h
          rcases h with h | h | h
          · exact Or.inl h
          · exact Or.inr (Or.inl h)
          · rcases hy.mpr (Or.inr h) with h | h
            · rcases h with h | h
              · exact Or.inl h
              · exact Or.inr (Or.inl h)
            · exact Or.inr (Or.inr h)
      · intro hacc
        have hax : (acc ++ [x]).Nodup := by
          simp [List.nodup_append, hacc, hx]
        have := h4 hax
        simpa [List.append_assoc] using this

/-- C6 (counterexample): the pipeline does not visit the primary
cluster ids in ascending numeric order.  With two valid records and a
kmeans run that assigns the first point to cluster 1 and the second to
cluster 0, analyze visits id 1 before id 0: the visit order is the order
of first appearance in the assignment, here [1, 0], which is not
ascending. -/
theorem analyze_order_not_ascending_cex :
    analyzeProcessedIds (kmConst [1, 0]) dataTwo 2 = [1, 0] ∧
    ¬ List.Sorted (· ≤ ·) (analyzeProcessedIds (kmConst [1, 0]) dataTwo 2) := by
  constructor
  · rfl
  · intro h
    rw [show analyzeProcessedIds (kmConst [1, 0]) dataTwo 2 = [1, 0] from rfl] at h
    exact absurd (List.rel_of_sorted_cons h 0 (by simp)) (by norm_num)

/-- C6 (amended): analyze processes the distinct primary cluster ids,
and merges their per-cluster results, in order of FIRST APPEARANCE in
the primary assignment (a duplicate-free sublist of the assignment
containing exactly the assigned ids), not necessarily in ascending
numeric order; the merge then follows that same order. -/
theorem analyze_first_appearance_order :
    (∀ l : List ℕ,
      (jsSet l).Nodup ∧ (∀ y, y ∈ jsSet l ↔ y ∈ l) ∧ (jsSet l).Sublist l) ∧
    (∀ (km : KMeans) (tri : Triangulator) (data : List DataRow) (n : ℤ) (cs : List ℕ),
      primaryAssignment km data n = some cs →
      analyzeProcessedIds km data n = jsSet cs ∧
      analyze km tri data n =
        assemble ((analyzeProcessedIds km data n).filterMap (clusterStep km tri data cs))) := by
  constructor
  · intro l
    obtain ⟨t, h1, h2, h3, h4⟩ := jsSet_foldl_spec l []
    have ht : jsSet l = t := by simpa [jsSet] using h1
    refine ⟨?_, ?_, ?_⟩
    · rw [ht]; simpa using h4 List.nodup_nil
    · intro y; rw [ht]; simpa using h3 y
    · rw [ht]; exact h2
  · intro km tri data n cs h
    constructor
    · simp [analyzeProcessedIds, h]
    · simp [analyze, analyzeProcessedIds, h]

/-- C6 (witness for the amended theorem): the first-appearance order is
realized on the concrete two-point input whose assignment is [1, 0]. -/
theorem analyze_first_appearance_order_witness :
    analyzeProcessedIds (kmConst [1, 0]) dataTwo 2 = jsSet [1, 0] ∧
    analyze (kmConst [1, 0]) triNone dataTwo 2 =
      assemble ((analyzeProcessedIds (kmConst [1, 0]) dataTwo 2).filterMap
        (clusterStep (kmConst [1, 0]) triNone dataTwo [1, 0])) :=
  analyze_first_appearance_order.2 (kmConst [1, 0]) triNone dataTwo 2 [1, 0] rfl

/-- The floor of the real fourth root of a natural number is the twice
iterated natural square root. -/
theorem natFloor_rpow_quarter (m : ℕ) :
    ⌊(m : ℝ) ^ ((0.25 : ℝ))⌋₊ = Nat.sqrt (Nat.sqrt m) := by
  have hm : (0 : ℝ) ≤ (m : ℝ) := Nat.cast_nonneg m
  have hx : (0 : ℝ) ≤ (m : ℝ) ^ ((0.25 : ℝ)) := Real.rpow_nonneg hm _
  have hx4 : ((m : ℝ) ^ ((0.25 : ℝ))) ^ (4 : ℕ) = (m : ℝ) := by
    rw [← Real.rpow_natCast ((m : ℝ) ^ ((0.25 : ℝ))) 4, ← Real.rpow_mul hm]
    norm_num
  have hk4 : Nat.sqrt (Nat.sqrt m) ^ 4 ≤ m := by
    have h1 : Nat.sqrt (Nat.sqrt m) ^ 2 ≤ Nat.sqrt m := Nat.sqrt_le' (Nat.sqrt m)
    calc Nat.sqrt (Nat.sqrt m) ^ 4 = (Nat.sqrt (Nat.sqrt m) ^ 2) ^ 2 := by ring
    _ ≤ Nat.sqrt m ^ 2 := Nat.pow_le_pow_left h1 2
    _ ≤ m := Nat.sqrt_le' m
  have hk4' : m < (Nat.sqrt (Nat.sqrt m) + 1) ^ 4 := by
    have h1 : m < (Nat.sqrt m + 1) ^ 2 := by
      simpa [Nat.succ_eq_add_one] using Nat.lt_succ_sqrt' m
    have h2 : Nat.sqrt m < (Nat.sqrt (Nat.sqrt m) + 1) ^ 2 := by
      simpa [Nat.succ_eq_add_one] using Nat.lt_succ_sqrt' (Nat.sqrt m)
    have h3 : Nat.sqrt m + 1 ≤ (Nat.sqrt (Nat.sqrt m) + 1) ^ 2 := h2
    calc m < (Nat.sqrt m + 1) ^ 2 := h1
    _ ≤ ((Nat.sqrt (Nat.sqrt m) + 1) ^ 2) ^ 2 := Nat.pow_le_pow_left h3 2
    _ = (Nat.sqrt (Nat.sqrt m) + 1) ^ 4 := by ring
  rw [Nat.floor_eq_iff hx]
  constructor
  · have hfl : ((Nat.sqrt (Nat.sqrt m) : ℝ)) ^ (4 : ℕ) ≤ ((m : ℝ) ^ ((0.25 : ℝ))) ^ (4 : ℕ) := by
      rw [hx4]
      calc ((Nat.sqrt (Nat.sqrt m) : ℝ)) ^ (4 : ℕ) = ((Nat.sqrt (Nat.sqrt m) ^ 4 : ℕ) : ℝ) := by
            push_cast; ring
      _ ≤ (m : ℝ) := by exact_mod_cast hk4
    exact le_of_pow_le_pow_left₀ (by norm_num) hx hfl
  · have hfl : ((m : ℝ) ^ ((0.25 : ℝ))) ^ (4 : ℕ) < ((Nat.sqrt (Nat.sqrt m) : ℝ) + 1) ^ (4 : ℕ) := by
      rw [hx4]
      calc (m : ℝ) < (((Nat.sqrt (Nat.sqrt m) + 1) ^ 4 : ℕ) : ℝ) := by exact_mod_cast hk4'
      _ = ((Nat.sqrt (Nat.sqrt m) : ℝ) + 1) ^ (4 : ℕ) := by push_cast; ring
    exact lt_of_pow_lt_pow_left₀ 4 (by positivity) hfl

/-- C5: the secondary cluster count used for a primary cluster of size m
equals max(1, floor(m to the power 0.25)); in particular m = 16 gives 2
and m = 1 gives 1, and the implementation floors rather than rounds: for
m = 80 the fourth root is at least 2.5 (so rounding would give 3) yet
the count is 2. -/
theorem subClusterCount_formula :
    (∀ m : ℕ, subClusterCount m = max 1 (⌊(m : ℝ) ^ ((0.25 : ℝ))⌋₊)) ∧
    subClusterCount 16 = 2 ∧ subClusterCount 1 = 1 ∧ subClusterCount 80 = 2 ∧
    ¬ ((80 : ℝ) ^ ((0.25 : ℝ)) < 5 / 2) := by
  have heval : ∀ m : ℕ, subClusterCount m = max 1 (Nat.sqrt (Nat.sqrt m)) := by
    intro m
    rw [subClusterCount]
    simp only [natFloor_rpow_quarter]
    rcases Nat.eq_zero_or_pos (Nat.sqrt (Nat.sqrt m)) with h | h
    · rw [h]; norm_num
    · rw [if_neg (by omega)]; omega
  have hs16 : Nat.sqrt 16 = 4 := by
    rw [show (16 : ℕ) = 4 * 4 from rfl]; exact Nat.sqrt_eq 4
  have hs4 : Nat.sqrt 4 = 2 := by
    rw [show (4 : ℕ) = 2 * 2 from rfl]; exact Nat.sqrt_eq 2
  have hs80 : Nat.sqrt 80 = 8 := by
    rw [show (80 : ℕ) = 8 * 8 + 16 from rfl]; exact Nat.sqrt_add_eq 8 (by norm_num)
  have hs8 : Nat.sqrt 8 = 2 := by
    rw [show (8 : ℕ) = 2 * 2 + 4 from rfl]; exact Nat.sqrt_add_eq 2 (by norm_num)
  refine ⟨?_, ?_, ?_, ?_, ?_⟩
  · intro m; rw [heval m, natFloor_rpow_quarter]
  · rw [heval, hs16, hs4]; rfl
  · rw [heval, Nat.sqrt_one, Nat.sqrt_one]; rfl
  · rw [heval, hs80, hs8]; rfl
  · intro hlt
    have hx : (0 : ℝ) ≤ (80 : ℝ) ^ ((0.25 : ℝ)) := Real.rpow_nonneg (by norm_num) _
    have hx4 : ((80 : ℝ) ^ ((0.25 : ℝ))) ^ (4 : ℕ) = (80 : ℝ) := by
      rw [← Real.rpow_natCast ((80 : ℝ) ^ ((0.25 : ℝ))) 4,
        ← Real.rpow_mul (by norm_num : (0 : ℝ) ≤ 80)]
      norm_num
    have hpow : ((80 : ℝ) ^ ((0.25 : ℝ))) ^ (4 : ℕ) < (5 / 2 : ℝ) ^ (4 : ℕ) :=
      pow_lt_pow_left₀ hlt hx (by norm_num)
    rw [hx4] at hpow
    norm_num at hpow

/-- C4: the effective primary cluster count is min(requested, number of
valid points): when that clamp is below 1 or there are no valid points
analyze returns empty output rather than failing, and otherwise the
primary stage depends on the clustering oracle only through the call at
the clamped count. -/
theorem analyze_clamp_empty :
    (∀ (km : KMeans) (tri : Triangulator) (data : List DataRow) (n : ℤ),
      (min n ((features data).length : ℤ) < 1 ∨ (features data).length < 1) →
      analyze km tri data n = ([], [])) ∧
    (∀ (km₁ km₂ : KMeans) (data : List DataRow) (n : ℤ),
      km₁ (features data) (min n ((features data).length : ℤ)).toNat =
        km₂ (features data) (min n ((features data).length : ℤ)).toNat →
      primaryAssignment km₁ data n = primaryAssignment km₂ data n) := by
  constructor
  · intro km tri data n h
    have hp : primaryAssignment km data n = none := by
      simp only [primaryAssignment]
      rw [if_pos h]
    simp [analyze, hp]
  · intro km₁ km₂ data n h
    simp only [primaryAssignment]
    rw [h]

/-- C4 (witness): on the empty record list the clamp is 0, so analyze
returns empty output; and two oracles that agree at the clamped primary
call give the same primary assignment. -/
theorem analyze_clamp_empty_witness :
    analyze (kmConst [0]) triNone [] 5 = ([], []) ∧
    primaryAssignment (kmConst [0]) [] 3 = primaryAssignment kmSmall [] 3 := by
  constructor
  · exact analyze_clamp_empty.1 (kmConst [0]) triNone [] 5 (Or.inr (by decide))
  · exact analyze_clamp_empty.2 (kmConst [0]) kmSmall [] 3 rfl

/-- C9: the pipeline is deterministic: two runs of analyze on identical
input with identically behaving (seeded) clustering and triangulation
components produce identical primary assignments and identical boundary
output; no hidden state survives between runs. -/
theorem analyze_deterministic (km₁ km₂ : KMeans) (tri₁ tri₂ : Triangulator)
    (data : List DataRow) (nCluster : ℤ)
    (hkm : ∀ ps k, km₁ ps k = km₂ ps k) (htri : ∀ ps, tri₁ ps = tri₂ ps) :
    primaryAssignment km₁ data nCluster = primaryAssignment km₂ data nCluster ∧
    analyze km₁ tri₁ data nCluster = analyze km₂ tri₂ data nCluster := by
  obtain rfl : km₁ = km₂ := funext fun ps => funext fun k => hkm ps k
  obtain rfl : tri₁ = tri₂ := funext htri
  exact ⟨rfl, rfl⟩

/-- C9 (witness): determinism realized at a concrete input. -/
theorem analyze_deterministic_witness :
    primaryAssignment (kmConst [0]) dataTwo 1 = primaryAssignment (kmConst [0]) dataTwo 1 ∧
    analyze (kmConst [0]) triNone dataTwo 1 = analyze (kmConst [0]) triNone dataTwo 1 :=
  analyze_deterministic (kmConst [0]) (kmConst [0]) triNone triNone dataTwo 1
    (fun _ _ => rfl) (fun _ => rfl)

/-- The filter predicate spelled out componentwise. -/
theorem keepRow_iff (r : DataRow) :
    keepRow r = true ↔
      r.Latitude.isSome = true ∧ r.Longitude.isSome = true ∧
        (toNumber r.Latitude).isNaN = false ∧ (toNumber r.Longitude).isNaN = false := by
  simp [keepRow, Bool.and_eq_true, Bool.not_eq_true', and_assoc]

/-- C8 (counterexample): the point filter does NOT retain only finite
coordinates: a record whose latitude converts to Infinity (not NaN) is
retained, because the source only tests isNaN and never finiteness. -/
theorem filter_keeps_infinite_row_cex :
    List.filter keepRow [rowInf] = [rowInf] ∧
    toNumber rowInf.Latitude = JsNum.posInf ∧
    ∀ x : ℝ, toNumber rowInf.Latitude ≠ JsNum.num x :=
  ⟨rfl, rfl, fun _ h => JsNum.noConfusion h⟩

/-- C8 (amended): the filter retains exactly the records whose two
coordinate fields are both present and do not convert to NaN (so
infinite values pass), and in particular no record with both
coordinates present and finite is dropped. -/
theorem filter_retains_nonNaN :
    (∀ (data : List DataRow) (r : DataRow),
      r ∈ data.filter keepRow ↔
        r ∈ data ∧ r.Latitude.isSome = true ∧ r.Longitude.isSome = true ∧
          (toNumber r.Latitude).isNaN = false ∧ (toNumber r.Longitude).isNaN = false) ∧
    (∀ (data : List DataRow) (r : DataRow) (x y : ℝ),
      r ∈ data → toNumber r.Latitude = JsNum.num x → toNumber r.Longitude = JsNum.num y →
      r ∈ data.filter keepRow) := by
  have hmem : ∀ (data : List DataRow) (r : DataRow),
      r ∈ data.filter keepRow ↔
        r ∈ data ∧ r.Latitude.isSome = true ∧ r.Longitude.isSome = true ∧
          (toNumber r.Latitude).isNaN = false ∧ (toNumber r.Longitude).isNaN = false := by
    intro data r
    rw [List.mem_filter, keepRow_iff]
  refine ⟨hmem, ?_⟩
  intro data r x y hr hx hy
  rw [hmem]
  refine ⟨hr, ?_, ?_, ?_, ?_⟩
  · cases hl : r.Latitude with
    | none => rw [hl] at hx; exact absurd hx (fun h => JsNum.noConfusion h)
    | some v => rfl
  · cases hl : r.Longitude with
    | none => rw [hl] at hy; exact absurd hy (fun h => JsNum.noConfusion h)
    | some v => rfl
  · rw [hx]; rfl
  · rw [hy]; rfl

/-- C8 (witness): a record with both coordinates present and finite is
retained on a concrete mixed list. -/
theorem filter_retains_nonNaN_witness :
    row 1 2 ∈ [rowU 9, row 1 2].filter keepRow :=
  filter_retains_nonNaN.2 [rowU 9, row 1 2] (row 1 2) 1 2 (by simp) rfl rfl

/-- C2 (code bug): with one invalid record followed by four valid ones,
all assigned to primary cluster 0, the point list built for the
secondary pass of cluster 0 is NOT the list of valid member points in
longitude-first order: the code filters the original data array by
feature-list indices, so it picks up the invalid row (as (9, 0), with a
fabricated 0 for the absent latitude) and drops the last valid row. -/
theorem clusterPoints_misaligned_cex :
    features dataMixed = [(1, 11), (2, 12), (3, 13), (4, 14)] ∧
    clusterPoints dataMixed [0, 0, 0, 0] 0 = [(9, 0), (11, 1), (12, 2), (13, 3)] ∧
    clusterPoints dataMixed [0, 0, 0, 0] 0 ≠ [(11, 1), (12, 2), (13, 3), (14, 4)] := by
  refine ⟨rfl, rfl, ?_⟩
  intro h
  rw [show clusterPoints dataMixed [0, 0, 0, 0] 0 = [(9, 0), (11, 1), (12, 2), (13, 3)]
    from rfl] at h
  simp only [List.cons.injEq, Prod.mk.injEq] at h
  exact absurd h.1.1 (by norm_num)

/-- C7 (counterexample): an edge with an out-of-range endpoint index is
silently swallowed by the boundary assembler, not fatal: with four
centroids, the edge (0, 5) is dropped without any failure, yielding
empty output, and a following in-range edge is still processed. -/
theorem assemble_swallows_oob_cex :
    assemble [([(0, 0), (1, 0), (1, 1), (0, 1)], [(0, 5)])] = ([], []) ∧
    assemble [([(0, 0), (1, 0), (1, 1), (0, 1)], [(0, 5), (0, 1)])] =
      ([[0, 1]], [[0, 0]]) := by
  constructor
  · rfl
  · rfl

/-- C7 (amended): in the boundary-assembly step an edge whose endpoint
index i or j is out of range for the centroid set is silently skipped by
the bounds guard (the run continues and assembles exactly the in-range
edges); it is not a fatal error. -/
theorem assemble_skips_oob (pairs : List (List (ℝ × ℝ) × List (ℕ × ℕ))) :
    assemble pairs =
      assemble (pairs.map fun p =>
        (p.1, p.2.filter fun e => decide (e.1 < p.1.length ∧ e.2 < p.1.length))) := by
  have hinner : ∀ (c : List (ℝ × ℝ)) (es : List (ℕ × ℕ)) (out : List (List ℝ) × List (List ℝ)),
      es.foldl (assembleEdge c) out =
        (es.filter fun e => decide (e.1 < c.length ∧ e.2 < c.length)).foldl
          (assembleEdge c) out := by
    intro c es
    induction es with
    | nil => intro out; rfl
    | cons e es ih =>
      intro out
      by_cases h : e.1 < c.length ∧ e.2 < c.length
      · rw [List.foldl_cons, ih, List.filter_cons_of_pos (by simpa using h), List.foldl_cons]
      · rw [List.foldl_cons, show assembleEdge c out e = out from if_neg h, ih,
          List.filter_cons_of_neg (by simpa using h)]
  have houter : ∀ (pairs : List (List (ℝ × ℝ) × List (ℕ × ℕ)))
      (out : List (List ℝ) × List (List ℝ)),
      pairs.foldl (fun out p => p.2.foldl (assembleEdge p.1) out) out =
        (pairs.map fun p =>
            (p.1, p.2.filter fun e => decide (e.1 < p.1.length ∧ e.2 < p.1.length))).foldl
          (fun out p => p.2.foldl (assembleEdge p.1) out) out := by
    intro pairs
    induction pairs with
    | nil => intro out; rfl
    | cons p ps ih =>
      intro out
      rw [List.foldl_cons, List.map_cons, List.foldl_cons, ih, hinner]
  exact houter pairs ([], [])

/-- The structural invariant of the boundary output: the two sequences
have equal length, every element is a two-coordinate pair, and position
p across the two sequences carries the two first coordinates and the two
second coordinates of one segment between two points of one centroid
set. -/
def ParallelSegments (out : List (List ℝ) × List (List ℝ)) : Prop :=
  out.1.length = out.2.length ∧
  (∀ l ∈ out.1, l.length = 2) ∧ (∀ l ∈ out.2, l.length = 2) ∧
  ∀ p : ℕ, p < out.1.length →
    ∃ (c : List (ℝ × ℝ)) (j k : ℕ), j < c.length ∧ k < c.length ∧
      out.1.getD p [] = [(c.getD j (0, 0)).1, (c.getD k (0, 0)).1] ∧
      out.2.getD p [] = [(c.getD j (0, 0)).2, (c.getD k (0, 0)).2]

theorem parallelSegments_empty : ParallelSegments ([], []) := by
  refine ⟨rfl, ?_, ?_, ?_⟩
  · intro l hl; exact absurd hl (List.not_mem_nil l)
  · intro l hl; exact absurd hl (List.not_mem_nil l)
  · intro p hp; exact absurd hp (by simp)

theorem parallelSegments_assembleEdge (c : List (ℝ × ℝ))
    (out : List (List ℝ) × List (List ℝ)) (e : ℕ × ℕ)
    (h : ParallelSegments out) : ParallelSegments (assembleEdge c out e) := by
  unfold assembleEdge
  by_cases hc : e.1 < c.length ∧ e.2 < c.length
  · rw [if_pos hc]
    obtain ⟨hlen, h1, h2, hseg⟩ := h
    refine ⟨by simp [hlen], ?_, ?_, ?_⟩
    · intro l hl
      rcases List.mem_append.mp hl with hl | hl
      · exact h1 l hl
      · rw [List.mem_singleton.mp hl]; rfl
    · intro l hl
      rcases List.mem_append.mp hl with hl | hl
      · exact h2 l hl
      · rw [List.mem_singleton.mp hl]; rfl
    · intro p hp
      simp only [List.length_append, List.length_singleton] at hp
      by_cases hp' : p < out.1.length
      · obtain ⟨c0, j, k, hj, hk, e1, e2⟩ := hseg p hp'
        refine ⟨c0, j, k, hj, hk, ?_, ?_⟩
        · rw [List.getD_append _ _ _ _ hp']; exact e1
        · rw [List.getD_append _ _ _ _ (hlen ▸ hp')]; exact e2
      · have hpe : p = out.1.length := by omega
        refine ⟨c, e.1, e.2, hc.1, hc.2, ?_, ?_⟩
        · rw [hpe, List.getD_append_right _ _ _ _ (le_refl _)]
          simp
        · rw [hpe, hlen, List.getD_append_right _ _ _ _ (le_refl _)]
          simp
  · rw [if_neg hc]; exact h

theorem parallelSegments_foldl (c : List (ℝ × ℝ)) (es : List (ℕ × ℕ)) :
    ∀ out : List (List ℝ) × List (List ℝ), ParallelSegments out →
      ParallelSegments (es.foldl (assembleEdge c) out) := by
  induction es with
  | nil => intro out h; exact h
  | cons e es ih =>
    intro out h
    exact ih (assembleEdge c out e) (parallelSegments_assembleEdge c out e h)

theorem parallelSegments_assemble (pairs : List (List (ℝ × ℝ) × List (ℕ × ℕ))) :
    ParallelSegments (assemble pairs) := by
  have houter : ∀ (ps : List (List (ℝ × ℝ) × List (ℕ × ℕ)))
      (out : List (List ℝ) × List (List ℝ)), ParallelSegments out →
      ParallelSegments (ps.foldl (fun out p => p.2.foldl (assembleEdge p.1) out) out) := by
    intro ps
    induction ps with
    | nil => intro out h; exact h
    | cons p ps ih =>
      intro out h
      exact ih _ (parallelSegments_foldl p.1 p.2 out h)
  exact houter pairs ([], []) parallelSegments_empty

/-- C10: for every input, the longs and lats sequences returned by
analyze have equal length, every element is a pair of two coordinates
taken from the longitude slot respectively latitude slot of one centroid
set (centers hold longitude first, latitude second), so position p
across the two sequences always forms one complete renderable
segment. -/
theorem analyze_parallel_output (km : KMeans) (tri : Triangulator)
    (data : List DataRow) (nCluster : ℤ) :
    ParallelSegments (analyze km tri data nCluster) := by
  rcases h : primaryAssignment km data nCluster with _ | cs
  · have : analyze km tri data nCluster = ([], []) := by simp [analyze, h]
    rw [this]; exact parallelSegments_empty
  · have : analyze km tri data nCluster =
        assemble ((jsSet cs).filterMap (clusterStep km tri data cs)) := by
      simp [analyze, h]
    rw [this]; exact parallelSegments_assemble _

/-- A fold of triStep over triangles that are all rejected (degenerate
or failing the radius test) adds nothing. -/
theorem triStep_rejected_foldl (points : List (ℝ × ℝ)) (alpha : ℝ) (oo : Bool)
    (ts : List (ℕ × ℕ × ℕ))
    (h : ∀ T ∈ ts, triArea points T = 0 ∨ ¬ triCircum points T < alpha) :
    ∀ es : List (ℕ × ℕ), ts.foldl (triStep points alpha oo) es = es := by
  induction ts with
  | nil => intro es; rfl
  | cons T ts ih =>
    intro es
    have hT := h T (List.mem_cons_self T ts)
    have hstep : triStep points alpha oo es T = es := by
      unfold triStep
      by_cases h0 : triArea points T = 0
      · rw [if_pos h0]
      · rcases hT with h0' | hcirc
        · exact absurd h0' h0
        · rw [if_neg h0, if_neg hcirc]
    rw [List.foldl_cons, hstep]
    exact ih (fun T hT => h T (List.mem_cons_of_mem _ hT)) es

/-- C3: alphaShape is total and returns the empty edge set (not an
error) in each of the three degenerate situations: fewer than four input
points, a triangulation step that raises (oracle none, the caught
exception of the source), and a triangulation in which no triangle
passes the circumradius test (each triangle degenerate or with radius at
least alpha). -/
theorem alphaShape_empty_cases :
    (∀ (tri : Triangulator) (points : List (ℝ × ℝ)) (alpha : ℝ) (oo : Bool),
      points.length < 4 → alphaShape tri points alpha oo = []) ∧
    (∀ (tri : Triangulator) (points : List (ℝ × ℝ)) (alpha : ℝ) (oo : Bool),
      tri points = none → alphaShape tri points alpha oo = []) ∧
    (∀ (tri : Triangulator) (points : List (ℝ × ℝ)) (alpha : ℝ) (oo : Bool)
      (ts : List (ℕ × ℕ × ℕ)),
      tri points = some ts →
      (∀ T ∈ ts, triArea points T = 0 ∨ ¬ triCircum points T < alpha) →
      alphaShape tri points alpha oo = []) := by
  refine ⟨?_, ?_, ?_⟩
  · intro tri points alpha oo h
    simp [alphaShape, h]
  · intro tri points alpha oo h
    by_cases hlen : points.length < 4
    · simp [alphaShape, hlen]
    · simp [alphaShape, hlen, h]
  · intro tri points alpha oo ts hts h
    by_cases hlen : points.length < 4
    · simp [alphaShape, hlen]
    · simp only [alphaShape, hlen, if_false, hts]
      exact triStep_rejected_foldl points alpha oo ts h []

/-- Four collinear points: every triangle over them is degenerate. -/
def ptsRow : List (ℝ × ℝ) := [(0, 0), (1, 0), (2, 0), (3, 0)]

/-- A triangulator returning one (degenerate) triangle. -/
def triOne : Triangulator := fun _ => some [(0, 1, 2)]

/-- C3 (witness): the three empty cases realized concretely: an empty
point list, a raising triangulation on four points, and a triangulation
whose only triangle is degenerate (three collinear points, Heron area
0). -/
theorem alphaShape_empty_cases_witness :
    alphaShape triNone [] 1 true = [] ∧
    alphaShape triNone ptsRow 1 true = [] ∧
    alphaShape triOne ptsRow 1 true = [] := by
  have harea : triArea ptsRow (0, 1, 2) = 0 := by
    have hs : triSides ptsRow (0, 1, 2) = (1, 1, 2) := by
      show (dist (0, 0) (1, 0), dist (1, 0) (2, 0), dist (2, 0) (0, 0)) = (1, 1, 2)
      unfold dist
      have h4 : Real.sqrt 4 = 2 := by
        rw [show (4 : ℝ) = 2 ^ 2 by norm_num, Real.sqrt_sq (by norm_num : (0 : ℝ) ≤ 2)]
      norm_num [Prod.ext_iff, Real.sqrt_one, h4]
    unfold triArea
    rw [hs]
    norm_num [Real.sqrt_zero]
  refine ⟨?_, ?_, ?_⟩
  · exact alphaShape_empty_cases.1 triNone [] 1 true (by simp)
  · exact alphaShape_empty_cases.2.1 triNone ptsRow 1 true rfl
  · refine alphaShape_empty_cases.2.2 triOne ptsRow 1 true [(0, 1, 2)] rfl ?_
    intro T hT
    rw [List.mem_singleton.mp hT]
    exact Or.inl harea

/-- The four corners of the unit square, in the order
(0,0), (1,0), (1,1), (0,1). -/
def sqPoints : List (ℝ × ℝ) := [(0, 0), (1, 0), (1, 1), (0, 1)]

/-- The Delaunay triangulation of the square along the (0,0)-(1,1)
diagonal, both triangles counterclockwise (d3-delaunay orientation), so
the shared diagonal appears in opposite directions. -/
def triSq1 : Triangulator := fun _ => some [(0, 1, 2), (0, 2, 3)]

/-- The Delaunay triangulation of the square along the other diagonal
(the four corners are cocircular so either diagonal is valid), both
triangles counterclockwise. -/
def triSq2 : Triangulator := fun _ => some [(0, 1, 3), (1, 2, 3)]

/-- The square of the square root of two. -/
theorem sq_sqrt_two : Real.sqrt 2 ^ 2 = 2 := Real.sq_sqrt (by norm_num)

/-- The square root of two is below two. -/
theorem sqrt_two_lt_two : Real.sqrt 2 < 2 := by
  rw [Real.sqrt_lt' (by norm_num : (0 : ℝ) < 2)]
  norm_num

/-- The Heron radicand of a right isoceles triangle with legs 1 and
hypotenuse the square root of 2 is 1/4 (for each of the three side
orders arising from the square's triangles), and the side product is the
square root of 2. -/
theorem heron_unit_square (a b c : ℝ)
    (habc : (a = 1 ∧ b = 1 ∧ c = Real.sqrt 2) ∨ (a = Real.sqrt 2 ∧ b = 1 ∧ c = 1) ∨
      (a = 1 ∧ b = Real.sqrt 2 ∧ c = 1)) :
    Real.sqrt (((a + b + c) / 2) * (((a + b + c) / 2) - a) * (((a + b + c) / 2) - b) *
        (((a + b + c) / 2) - c)) = 1 / 2 ∧
      a * b * c = Real.sqrt 2 := by
  have sqrt14 : ∀ x : ℝ, x = 1 / 4 → Real.sqrt x = 1 / 2 := by
    intro x hx
    rw [hx, show (1 / 4 : ℝ) = (1 / 2) ^ 2 by norm_num,
      Real.sqrt_sq (by norm_num : (0 : ℝ) ≤ 1 / 2)]
  rcases habc with ⟨rfl, rfl, rfl⟩ | ⟨rfl, rfl, rfl⟩ | ⟨rfl, rfl, rfl⟩ <;>
    exact ⟨sqrt14 _ (by linear_combination (-(Real.sqrt 2 ^ 2 - 2) / 16) * sq_sqrt_two),
      by ring⟩

theorem sides_sq1a : triSides sqPoints (0, 1, 2) = (1, 1, Real.sqrt 2) := by
  show (dist (0, 0) (1, 0), dist (1, 0) (1, 1), dist (1, 1) (0, 0)) = (1, 1, Real.sqrt 2)
  unfold dist
  norm_num [Prod.ext_iff, Real.sqrt_one]

theorem sides_sq1b : triSides sqPoints (0, 2, 3) = (Real.sqrt 2, 1, 1) := by
  show (dist (0, 0) (1, 1), dist (1, 1) (0, 1), dist (0, 1) (0, 0)) = (Real.sqrt 2, 1, 1)
  unfold dist
  norm_num [Prod.ext_iff, Real.sqrt_one]

theorem sides_sq2a : triSides sqPoints (0, 1, 3) = (1, Real.sqrt 2, 1) := by
  show (dist (0, 0) (1, 0), dist (1, 0) (0, 1), dist (0, 1) (0, 0)) = (1, Real.sqrt 2, 1)
  unfold dist
  norm_num [Prod.ext_iff, Real.sqrt_one]

theorem sides_sq2b : triSides sqPoints (1, 2, 3) = (1, 1, Real.sqrt 2) := by
  show (dist (1, 0) (1, 1), dist (1, 1) (0, 1), dist (0, 1) (1, 0)) = (1, 1, Real.sqrt 2)
  unfold dist
  norm_num [Prod.ext_iff, Real.sqrt_one]

theorem area_sq1a : triArea sqPoints (0, 1, 2) = 1 / 2 := by
  unfold triArea
  rw [sides_sq1a]
  exact (heron_unit_square 1 1 (Real.sqrt 2) (Or.inl ⟨rfl, rfl, rfl⟩)).1

theorem area_sq1b : triArea sqPoints (0, 2, 3) = 1 / 2 := by
  unfold triArea
  rw [sides_sq1b]
  exact (heron_unit_square (Real.sqrt 2) 1 1 (Or.inr (Or.inl ⟨rfl, rfl, rfl⟩))).1

theorem area_sq2a : triArea sqPoints (0, 1, 3) = 1 / 2 := by
  unfold triArea
  rw [sides_sq2a]
  exact (heron_unit_square 1 (Real.sqrt 2) 1 (Or.inr (Or.inr ⟨rfl, rfl, rfl⟩))).1

theorem area_sq2b : triArea sqPoints (1, 2, 3) = 1 / 2 := by
  unfold triArea
  rw [sides_sq2b]
  exact (heron_unit_square 1 1 (Real.sqrt 2) (Or.inl ⟨rfl, rfl, rfl⟩)).1

theorem circum_sq1a : triCircum sqPoints (0, 1, 2) = Real.sqrt 2 / 2 := by
  unfold triCircum
  rw [sides_sq1a, area_sq1a]
  ring

theorem circum_sq1b : triCircum sqPoints (0, 2, 3) = Real.sqrt 2 / 2 := by
  unfold triCircum
  rw [sides_sq1b, area_sq1b]
  ring

theorem circum_sq2a : triCircum sqPoints (0, 1, 3) = Real.sqrt 2 / 2 := by
  unfold triCircum
  rw [sides_sq2a, area_sq2a]
  ring

theorem circum_sq2b : triCircum sqPoints (1, 2, 3) = Real.sqrt 2 / 2 := by
  unfold triCircum
  rw [sides_sq2b, area_sq2b]
  ring

theorem step_sq1a (es : List (ℕ × ℕ)) :
    triStep sqPoints 10 true es (0, 1, 2) =
      addEdge true (addEdge true (addEdge true es 0 1) 1 2) 2 0 := by
  unfold triStep
  rw [if_neg (by rw [area_sq1a]; norm_num),
    if_pos (by rw [circum_sq1a]; linarith [sqrt_two_lt_two])]

theorem step_sq1b (es : List (ℕ × ℕ)) :
    triStep sqPoints 10 true es (0, 2, 3) =
      addEdge true (addEdge true (addEdge true es 0 2) 2 3) 3 0 := by
  unfold triStep
  rw [if_neg (by rw [area_sq1b]; norm_num),
    if_pos (by rw [circum_sq1b]; linarith [sqrt_two_lt_two])]

theorem step_sq2a (es : List (ℕ × ℕ)) :
    triStep sqPoints 10 true es (0, 1, 3) =
      addEdge true (addEdge true (addEdge true es 0 1) 1 3) 3 0 := by
  unfold triStep
  rw [if_neg (by rw [area_sq2a]; norm_num),
    if_pos (by rw [circum_sq2a]; linarith [sqrt_two_lt_two])]

theorem step_sq2b (es : List (ℕ × ℕ)) :
    triStep sqPoints 10 true es (1, 2, 3) =
      addEdge true (addEdge true (addEdge true es 1 2) 2 3) 3 1 := by
  unfold triStep
  rw [if_neg (by rw [area_sq2b]; norm_num),
    if_pos (by rw [circum_sq2b]; linarith [sqrt_two_lt_two])]

/-- C1: on the 4-point square with alpha = 10 and outer-only mode, both
triangles of the Delaunay triangulation pass the radius test (each
circumradius is below 10), and alphaShape returns exactly the 4
perimeter edges: the shared diagonal, registered by the two surviving
triangles in opposite directions, is cancelled (both its forward and its
reverse registration removed).  Both valid triangulations of the
cocircular square (diagonal 0-2 or diagonal 1-3) are covered. -/
theorem alphaShape_square_perimeter :
    (alphaShape triSq1 sqPoints 10 true = [(0, 1), (1, 2), (2, 3), (3, 0)] ∧
      (0, 2) ∉ alphaShape triSq1 sqPoints 10 true ∧
      (2, 0) ∉ alphaShape triSq1 sqPoints 10 true ∧
      triCircum sqPoints (0, 1, 2) < 10 ∧ triCircum sqPoints (0, 2, 3) < 10) ∧
    (alphaShape triSq2 sqPoints 10 true = [(0, 1), (3, 0), (1, 2), (2, 3)] ∧
      (1, 3) ∉ alphaShape triSq2 sqPoints 10 true ∧
      (3, 1) ∉ alphaShape triSq2 sqPoints 10 true) := by
  have hmain1 : alphaShape triSq1 sqPoints 10 true = [(0, 1), (1, 2), (2, 3), (3, 0)] := by
    unfold alphaShape
    rw [if_neg (by norm_num [sqPoints])]
    show List.foldl (triStep sqPoints 10 true) [] [(0, 1, 2), (0, 2, 3)] = _
    rw [List.foldl_cons, step_sq1a, List.foldl_cons, step_sq1b, List.foldl_nil]
    decide
  have hmain2 : alphaShape triSq2 sqPoints 10 true = [(0, 1), (3, 0), (1, 2), (2, 3)] := by
    unfold alphaShape
    rw [if_neg (by norm_num [sqPoints])]
    show List.foldl (triStep sqPoints 10 true) [] [(0, 1, 3), (1, 2, 3)] = _
    rw [List.foldl_cons, step_sq2a, List.foldl_cons, step_sq2b, List.foldl_nil]
    decide
  refine ⟨⟨hmain1, ?_, ?_, ?_, ?_⟩, hmain2, ?_, ?_⟩
  · rw [hmain1]; decide
  · rw [hmain1]; decide
  · rw [circum_sq1a]; linarith [sqrt_two_lt_two]
  · rw [circum_sq1b]; linarith [sqrt_two_lt_two]
  · rw [hmain2]; decide
  · rw [hmain2]; decide

end Nikolaj
